import Mathlib

/-!
Verification of the flavor-wheel geometry and interaction engine.

The development shallowly embeds the program's source:

* `src/utils/wheelData.ts`   — taxonomy flattener (`flattenToSegments`,
  `buildWheelSegments`, `getSegmentsByRing`); JavaScript numbers are embedded
  as exact rationals (`ℚ`); `Record` objects are embedded as association
  lists in key insertion order (JavaScript objects preserve insertion order
  and cannot contain duplicate keys).
* `src/utils/colors.ts`      — `lighten` and `getSegmentFill`, embedded
  exactly over `ℕ`/`ℚ` including `parseInt(_, 16)`, bit extraction,
  `Math.round` (half toward +∞) and `toString(16).slice(1)`.
* `src/components/FlavorWheel.tsx` — `tangentialLabelRotation` (embedded
  over `ℚ` with the JavaScript `%` remainder, which keeps the dividend's
  sign), `getTooltipPosition` (embedded over `ℝ` because it uses
  `Math.hypot`; the window half-dimensions are passed as parameters), and
  the gesture handlers (`handlePointerDown/Move/Up`, `handleWheel`,
  `handleTouchStart/Move/End`), embedded as a step function on an explicit
  state record.  The pointer angle produced by `angleFromEvent`
  (an `atan2` expression, always in `[0,360)`) is carried directly on the
  pointer events; zoom values are embedded as `JSNum`, a tagged
  rational/real with `NaN` and the infinities, because the pinch path can
  produce `NaN` through division by a zero touch distance.
-/

/-! ## JavaScript numeric primitives (exact fragments) -/

/-- Truncation toward zero, the rounding used by the JavaScript `%` operator. -/
def jsTrunc (q : ℚ) : ℤ :=
  if 0 ≤ q then ⌊q⌋ else ⌈q⌉

/-- JavaScript remainder `a % b` for finite operands: the result has the sign
of the dividend `a` (unlike the mathematical modulus). -/
def jsRem (a b : ℚ) : ℚ :=
  a - b * jsTrunc (a / b)

/-- Mathematical normalization of an angle into `[0, 360)`, used to state the
spec's "normalized into [0,360)" screen-space angle. -/
def norm360 (x : ℚ) : ℚ :=
  x - 360 * ⌊x / 360⌋

/-- `Math.round`: JavaScript rounds half toward positive infinity. -/
def jsRound (q : ℚ) : ℤ :=
  ⌊q + 1 / 2⌋

/-! ## Taxonomy data model (`src/types.ts`)

`FlavorNode` carries `name`, `description` and an optional `children`
record; records are embedded as association lists in insertion order. -/

inductive FlavorNode where
  | mk (name description : String) (children : Option (List (String × FlavorNode)))

def FlavorNode.name : FlavorNode → String
  | .mk n _ _ => n

def FlavorNode.description : FlavorNode → String
  | .mk _ d _ => d

def FlavorNode.children : FlavorNode → Option (List (String × FlavorNode))
  | .mk _ _ c => c

abbrev FlavorWheelData := List (String × FlavorNode)

structure WheelSegment where
  id : String
  ring : ℕ
  name : String
  description : String
  startAngle : ℚ
  endAngle : ℚ
  parentId : Option String
  categoryId : String
deriving DecidableEq, Repr

/-- Signed angular span of a segment. -/
def spanOf (s : WheelSegment) : ℚ :=
  s.endAngle - s.startAngle

/-! ## Taxonomy flattener (`src/utils/wheelData.ts`)

The source builds the segment list with three nested `forEach` loops over
`Object.keys`; each closure is embedded as a named top-level function taking
the loop's enumeration pair `(index, (key, node))`.  The loop index `i` is a
natural number cast into `ℚ` where it enters angle arithmetic.  In the
source, `step`/`subStep`/`leafStep` divide by a key count that can be zero
only when the corresponding `forEach` loop body never runs (JavaScript would
produce `Infinity`, Lean's `ℚ` produces `0`; neither value is ever consumed),
so the outputs coincide. -/

def ring3Seg (catId subId : String) (b0 leafStep sign : ℚ)
    (p : ℕ × (String × FlavorNode)) : WheelSegment :=
  { id := catId ++ "-" ++ subId ++ "-" ++ p.2.1
    ring := 3
    name := p.2.2.name
    description := p.2.2.description
    startAngle := b0 + (p.1 : ℚ) * leafStep * sign
    endAngle := b0 + ((p.1 : ℚ) + 1) * leafStep * sign
    parentId := some (catId ++ "-" ++ subId)
    categoryId := catId }

def leafSegs (catId subId : String) (b0 subStep sign : ℚ)
    (leaves : List (String × FlavorNode)) : List WheelSegment :=
  let leafStep := subStep / (leaves.length : ℚ)
  leaves.enum.map (ring3Seg catId subId b0 leafStep sign)

def ring2Seg (catId : String) (a0 subStep sign : ℚ)
    (p : ℕ × (String × FlavorNode)) : WheelSegment :=
  { id := catId ++ "-" ++ p.2.1
    ring := 2
    name := p.2.2.name
    description := p.2.2.description
    startAngle := a0 + (p.1 : ℚ) * subStep * sign
    endAngle := a0 + ((p.1 : ℚ) + 1) * subStep * sign
    parentId := some catId
    categoryId := catId }

def subSegs (catId : String) (a0 step sign : ℚ)
    (subs : List (String × FlavorNode)) : List WheelSegment :=
  let subStep := step / (subs.length : ℚ)
  (subs.enum.map (fun p =>
    ring2Seg catId a0 subStep sign p ::
      (match p.2.2.children with
        | none => []
        | some leaves =>
            leafSegs catId p.2.1 (a0 + (p.1 : ℚ) * subStep * sign) subStep sign
              leaves))).flatten

def ring1Seg (startAngleDeg step sign : ℚ)
    (p : ℕ × (String × FlavorNode)) : WheelSegment :=
  { id := p.2.1
    ring := 1
    name := p.2.2.name
    description := p.2.2.description
    startAngle := startAngleDeg + (p.1 : ℚ) * step * sign
    endAngle := startAngleDeg + ((p.1 : ℚ) + 1) * step * sign
    parentId := none
    categoryId := p.2.1 }

def flattenToSegments (data : FlavorWheelData)
    (startAngleDeg : ℚ) (clockwise : Bool) : List WheelSegment :=
  let total : ℚ := 360
  let step := total / (data.length : ℚ)
  let sign : ℚ := if clockwise then 1 else -1
  (data.enum.map (fun p =>
    ring1Seg startAngleDeg step sign p ::
      (match p.2.2.children with
        | none => []
        | some subs =>
            subSegs p.2.1 (startAngleDeg + (p.1 : ℚ) * step * sign) step sign
              subs))).flatten

def buildWheelSegments (data : FlavorWheelData) : List WheelSegment :=
  flattenToSegments data 0 true

def getSegmentsByRing (segments : List WheelSegment) (ring : ℕ) :
    List WheelSegment :=
  segments.filter (fun s => s.ring == ring)

/-! ## Color utilities (`src/utils/colors.ts`) -/

def CATEGORY_BASE : List (String × String) :=
  [("vegetale", "#4a7c4a"),
   ("animale", "#8b6914"),
   ("floreale", "#b85c7a"),
   ("fruttato", "#c46838"),
   ("caldo", "#c9a227"),
   ("aromatico", "#6b6b9e"),
   ("chimico", "#5c6b6b")]

/-- Value of a single hexadecimal digit, as `parseInt(_, 16)` reads it. -/
def hexDigitVal (c : Char) : ℕ :=
  if '0' ≤ c ∧ c ≤ '9' then c.toNat - 48
  else if 'a' ≤ c ∧ c ≤ 'f' then c.toNat - 87
  else if 'A' ≤ c ∧ c ≤ 'F' then c.toNat - 55
  else 0

/-- `parseInt(s, 16)` on a string of hexadecimal digits. -/
def parseHex (s : String) : ℕ :=
  s.data.foldl (fun acc c => acc * 16 + hexDigitVal c) 0

/-- `n.toString(16)` for a natural number (lowercase hexadecimal digits). -/
def toHexString (n : ℕ) : String :=
  (Nat.toDigits 16 n).asString

/-- `lighten(hex, amount)` from `src/utils/colors.ts`: parse the string after
the leading character as one 24-bit number, move each 8-bit channel toward
255 by `amount`, clamp with `Math.min(255, _)`, round with `Math.round`, and
re-render as `"#" + (0x1000000 + r*0x10000 + g*0x100 + b).toString(16).slice(1)`. -/
def lighten (hex : String) (amount : ℚ) : String :=
  let n := parseHex (hex.drop 1)
  let rc := n / 65536 % 256
  let gc := n / 256 % 256
  let bc := n % 256
  let r : ℚ := min 255 ((rc : ℚ) + (255 - (rc : ℚ)) * amount)
  let g : ℚ := min 255 ((gc : ℚ) + (255 - (gc : ℚ)) * amount)
  let b : ℚ := min 255 ((bc : ℚ) + (255 - (bc : ℚ)) * amount)
  "#" ++ (toHexString (16777216 + (jsRound r).toNat * 65536 +
    (jsRound g).toNat * 256 + (jsRound b).toNat)).drop 1

def getSegmentFill (categoryId : String) (ring : ℕ) : String :=
  let base := (CATEGORY_BASE.lookup categoryId).getD "#888"
  if ring = 1 then base
  else if ring = 2 then lighten base (1 / 5)
  else lighten base (19 / 50)

/-! ## Tangential label rotation (`src/components/FlavorWheel.tsx`)

`tangentialLabelRotation` is the source function verbatim; `%` is the
JavaScript remainder `jsRem`, which keeps the sign of the dividend. -/

def tangentialLabelRotation (midDeg wheelRotation : ℚ) : ℚ :=
  let alongArc := midDeg + 90
  let screenAngle := jsRem (alongArc + wheelRotation + 360) 360
  if 90 < screenAngle ∧ screenAngle < 270 then alongArc + 180 else alongArc

/-! ## Concrete example taxonomy (the spec's end-to-end scenario) -/

def exData : FlavorWheelData :=
  [("a", FlavorNode.mk "A" "d" (some [("x", FlavorNode.mk "X" "dx" none)])),
   ("b", FlavorNode.mk "B" "d2" none)]

/-! ## First concrete evaluations -/

/-- C2: at `midDeg = 0`, `wheelRotation = -560` the label is rendered
upside down: `alongArc = 90`, the JavaScript remainder
`(90 - 560 + 360) % 360` is `-110` (negative, because the dividend is
negative), the `90 < _ < 270` test therefore fails, no flip is applied,
and the screen-space angle `(90 - 560) mod 360 = 250` lies strictly
between 90 and 270. -/
theorem tangentialLabelRotation_upsideDown_at_neg_rotation :
    tangentialLabelRotation 0 (-560) = 90 ∧
    norm360 (tangentialLabelRotation 0 (-560) + (-560)) = 250 ∧
    (90 : ℚ) < 250 ∧ (250 : ℚ) < 270 := by
  have hceil : ⌈(-(11 / 36) : ℚ)⌉ = 0 := by
    rw [Int.ceil_eq_iff]
    constructor <;> norm_num
  have h1 : tangentialLabelRotation 0 (-560) = 90 := by
    unfold tangentialLabelRotation jsRem jsTrunc
    norm_num [hceil]
  refine ⟨h1, ?_, by norm_num, by norm_num⟩
  rw [h1]
  unfold norm360
  norm_num

/-- C6: the spec's end-to-end scenario. -/
theorem buildWheelSegments_example_e2e :
    ({ id := "a", ring := 1, name := "A", description := "d",
       startAngle := 0, endAngle := 180, parentId := none,
       categoryId := "a" } : WheelSegment) ∈ buildWheelSegments exData ∧
    ({ id := "b", ring := 1, name := "B", description := "d2",
       startAngle := 180, endAngle := 360, parentId := none,
       categoryId := "b" } : WheelSegment) ∈ buildWheelSegments exData ∧
    ({ id := "a-x", ring := 2, name := "X", description := "dx",
       startAngle := 0, endAngle := 180, parentId := some "a",
       categoryId := "a" } : WheelSegment) ∈ buildWheelSegments exData := by
  have hsegs : buildWheelSegments exData =
      [{ id := "a", ring := 1, name := "A", description := "d",
         startAngle := 0, endAngle := 180, parentId := none,
         categoryId := "a" },
       { id := "a-x", ring := 2, name := "X", description := "dx",
         startAngle := 0, endAngle := 180, parentId := some "a",
         categoryId := "a" },
       { id := "b", ring := 1, name := "B", description := "d2",
         startAngle := 180, endAngle := 360, parentId := none,
         categoryId := "b" }] := by
    unfold buildWheelSegments flattenToSegments exData subSegs leafSegs
    simp [List.enum, List.enumFrom, ring1Seg, ring2Seg, ring3Seg,
      FlavorNode.children, FlavorNode.name, FlavorNode.description]
    norm_num
  rw [hsegs]
  simp

/-- C1 counterexample: for the empty taxonomy the flattener returns no
segments at all, so the ring-1 spans sum to 0, not 360. -/
theorem flatten_empty_sum_ne_360 :
    flattenToSegments [] 0 true = [] ∧
    ((getSegmentsByRing (flattenToSegments [] 0 true) 1).map spanOf).sum = 0 ∧
    ((getSegmentsByRing (flattenToSegments [] 0 true) 1).map spanOf).sum ≠ 360 := by
  have h : flattenToSegments [] 0 true = [] := by
    unfold flattenToSegments
    simp [List.enum, List.enumFrom]
  refine ⟨h, ?_, ?_⟩ <;> rw [h] <;> simp [getSegmentsByRing]

/-- C10 counterexample: for an unknown category id at ring 1,
`getSegmentFill` returns the fallback `"#888"`, a 4-character shorthand,
not a 7-character `#rrggbb` string. -/
theorem getSegmentFill_unknown_ring1_shorthand :
    getSegmentFill "zzz" 1 = "#888" ∧ ("#888").length = 4 ∧
    (getSegmentFill "zzz" 1).length ≠ 7 := by
  have h : getSegmentFill "zzz" 1 = "#888" := rfl
  exact ⟨h, by decide, by rw [h]; decide⟩

/-! ## Structural lemmas about the flattener -/

lemma flatten_map_singleton {α β : Type} (f : α → β) (l : List α) :
    (l.map (fun a => [f a])).flatten = l.map f := by
  induction l with
  | nil => rfl
  | cons a t ih => simp [ih]

lemma mem_leafSegs_ring {catId subId : String} {b0 subStep sign : ℚ}
    {leaves : List (String × FlavorNode)} {s : WheelSegment}
    (h : s ∈ leafSegs catId subId b0 subStep sign leaves) : s.ring = 3 := by
  unfold leafSegs at h
  obtain ⟨p, -, rfl⟩ := List.mem_map.mp h
  rfl

lemma mem_leafSegs_categoryId {catId subId : String} {b0 subStep sign : ℚ}
    {leaves : List (String × FlavorNode)} {s : WheelSegment}
    (h : s ∈ leafSegs catId subId b0 subStep sign leaves) : s.categoryId = catId := by
  unfold leafSegs at h
  obtain ⟨p, -, rfl⟩ := List.mem_map.mp h
  rfl

lemma mem_subSegs_ring {catId : String} {a0 step sign : ℚ}
    {subs : List (String × FlavorNode)} {s : WheelSegment}
    (h : s ∈ subSegs catId a0 step sign subs) : s.ring = 2 ∨ s.ring = 3 := by
  unfold subSegs at h
  obtain ⟨l, hl, hs⟩ := List.mem_flatten.mp h
  obtain ⟨p, -, rfl⟩ := List.mem_map.mp hl
  rcases List.mem_cons.mp hs with rfl | h3
  · exact Or.inl rfl
  · cases hc : p.2.2.children with
    | none => rw [hc] at h3; cases h3
    | some leaves => rw [hc] at h3; exact Or.inr (mem_leafSegs_ring h3)

lemma mem_subSegs_categoryId {catId : String} {a0 step sign : ℚ}
    {subs : List (String × FlavorNode)} {s : WheelSegment}
    (h : s ∈ subSegs catId a0 step sign subs) : s.categoryId = catId := by
  unfold subSegs at h
  obtain ⟨l, hl, hs⟩ := List.mem_flatten.mp h
  obtain ⟨p, -, rfl⟩ := List.mem_map.mp hl
  rcases List.mem_cons.mp hs with rfl | h3
  · rfl
  · cases hc : p.2.2.children with
    | none => rw [hc] at h3; cases h3
    | some leaves => rw [hc] at h3; exact mem_leafSegs_categoryId h3

/-- No ring-1 segment occurs in a category's sub-block. -/
lemma filter_ring1_subSegs (catId : String) (a0 step sign : ℚ)
    (subs : List (String × FlavorNode)) :
    (subSegs catId a0 step sign subs).filter (fun s => s.ring == 1) = [] :=
  List.filter_eq_nil_iff.mpr fun s hs => by
    rcases mem_subSegs_ring hs with h | h <;> simp [h]

/-- The ring-1 segments of the flattener's output, in order: exactly one per
top-level category, produced by `ring1Seg`. -/
lemma filter_ring1_flatten (data : FlavorWheelData) (θ : ℚ) (cw : Bool) :
    getSegmentsByRing (flattenToSegments data θ cw) 1 =
      data.enum.map
        (ring1Seg θ (360 / (data.length : ℚ)) (if cw then 1 else -1)) := by
  unfold getSegmentsByRing flattenToSegments
  rw [List.filter_flatten, List.map_map]
  refine Eq.trans (congrArg List.flatten
    (List.map_congr_left fun p hp => ?_)) (flatten_map_singleton _ _)
  simp only [Function.comp]
  cases hc : p.2.2.children with
  | none => simp [ring1Seg]
  | some subs => simp [ring1Seg, filter_ring1_subSegs]

/-- No ring-2 segment occurs among a subcategory's leaves. -/
lemma filter_ring2_leafSegs (catId subId : String) (b0 subStep sign : ℚ)
    (leaves : List (String × FlavorNode)) :
    (leafSegs catId subId b0 subStep sign leaves).filter
      (fun s => s.ring == 2) = [] :=
  List.filter_eq_nil_iff.mpr fun s hs => by
    simp [mem_leafSegs_ring hs]

/-- The ring-2 segments of a category's sub-block, in order: exactly one per
subcategory, produced by `ring2Seg`. -/
lemma filter_ring2_subSegs (catId : String) (a0 step sign : ℚ)
    (subs : List (String × FlavorNode)) :
    (subSegs catId a0 step sign subs).filter (fun s => s.ring == 2) =
      subs.enum.map (ring2Seg catId a0 (step / (subs.length : ℚ)) sign) := by
  unfold subSegs
  rw [List.filter_flatten, List.map_map]
  refine Eq.trans (congrArg List.flatten
    (List.map_congr_left fun p hp => ?_)) (flatten_map_singleton _ _)
  simp only [Function.comp]
  cases hc : p.2.2.children with
  | none => simp [ring2Seg]
  | some leaves => simp [ring2Seg, filter_ring2_leafSegs]

/-- Adjacency of consecutive images of an index-driven map over `enumFrom`. -/
lemma chain'_enumFrom_map {α β : Type} (R : β → β → Prop)
    (f : ℕ × α → β) (h : ∀ i x y, R (f (i, x)) (f (i + 1, y))) :
    ∀ (n : ℕ) (l : List α), List.Chain' R ((List.enumFrom n l).map f)
  | _, [] => List.chain'_nil
  | n, [a] => List.chain'_singleton _
  | n, a :: b :: t => by
    rw [show List.enumFrom n (a :: b :: t) =
      (n, a) :: List.enumFrom (n + 1) (b :: t) from rfl, List.map_cons]
    exact List.chain'_cons.mpr
      ⟨h n a b, chain'_enumFrom_map R f h (n + 1) (b :: t)⟩

/-- Entry `i` of an index-driven map over `enum`. -/
lemma getElem_enum_map {α β : Type} (f : ℕ × α → β) (l : List α) (i : ℕ)
    (hi : i < (l.enum.map f).length) :
    (l.enum.map f).get ⟨i, hi⟩ =
      f (i, l.get ⟨i, by simpa using hi⟩) := by
  simp [List.getElem_map, List.getElem_enum]

/-- Sum of a constant-valued map over an enumerated list. -/
lemma sum_map_enum_const {α β : Type} (g : β → ℚ) (f : ℕ × α → β)
    (c : ℚ) (l : List α) (h : ∀ p, g (f p) = c) :
    ((l.enum.map f).map g).sum = (l.length : ℚ) * c := by
  rw [List.map_map]
  have hrep : l.enum.map (g ∘ f) = List.replicate l.length c := by
    refine List.eq_replicate_iff.mpr ⟨by simp, ?_⟩
    intro b hb
    obtain ⟨p, -, rfl⟩ := List.mem_map.mp hb
    exact h p
  rw [hrep, List.sum_replicate, nsmul_eq_mul]

/-- A ring-1 segment of category `p` occurs in the flattener's output. -/
lemma ring1Seg_mem_flatten {data : FlavorWheelData} {θ : ℚ} {cw : Bool}
    {p : ℕ × (String × FlavorNode)} (hp : p ∈ data.enum) :
    ring1Seg θ (360 / (data.length : ℚ)) (if cw then 1 else -1) p ∈
      flattenToSegments data θ cw := by
  unfold flattenToSegments
  exact List.mem_flatten.mpr ⟨_, List.mem_map_of_mem _ hp, List.mem_cons_self _ _⟩

/-- A segment of category `p`'s sub-block occurs in the flattener's output. -/
lemma mem_flatten_of_mem_subSegs {data : FlavorWheelData} {θ : ℚ} {cw : Bool}
    {p : ℕ × (String × FlavorNode)} (hp : p ∈ data.enum)
    {subs : List (String × FlavorNode)} (hc : p.2.2.children = some subs)
    {s : WheelSegment}
    (hs : s ∈ subSegs p.2.1
      (θ + (p.1 : ℚ) * (360 / (data.length : ℚ)) * (if cw then 1 else -1))
      (360 / (data.length : ℚ)) (if cw then 1 else -1) subs) :
    s ∈ flattenToSegments data θ cw := by
  unfold flattenToSegments
  refine List.mem_flatten.mpr ⟨_, List.mem_map_of_mem _ hp,
    List.mem_cons_of_mem _ ?_⟩
  simp only [hc]
  exact hs

/-- The ring-2 segment of subcategory `q` occurs in its category's sub-block. -/
lemma ring2Seg_mem_subSegs (catId : String) (a0 step sign : ℚ)
    {subs : List (String × FlavorNode)}
    {q : ℕ × (String × FlavorNode)} (hq : q ∈ subs.enum) :
    ring2Seg catId a0 (step / (subs.length : ℚ)) sign q ∈
      subSegs catId a0 step sign subs := by
  unfold subSegs
  exact List.mem_flatten.mpr ⟨_, List.mem_map_of_mem _ hq, List.mem_cons_self _ _⟩

/-- A segment of subcategory `q`'s leaf list occurs in the enclosing sub-block. -/
lemma mem_subSegs_of_mem_leafSegs {catId : String} {a0 step sign : ℚ}
    {subs : List (String × FlavorNode)}
    {q : ℕ × (String × FlavorNode)} (hq : q ∈ subs.enum)
    {leaves : List (String × FlavorNode)} (hc : q.2.2.children = some leaves)
    {s : WheelSegment}
    (hs : s ∈ leafSegs catId q.2.1
      (a0 + (q.1 : ℚ) * (step / (subs.length : ℚ)) * sign)
      (step / (subs.length : ℚ)) sign leaves) :
    s ∈ subSegs catId a0 step sign subs := by
  unfold subSegs
  refine List.mem_flatten.mpr ⟨_, List.mem_map_of_mem _ hq,
    List.mem_cons_of_mem _ ?_⟩
  simp only [hc]
  exact hs

/-- Adjacent segments in the list touch: each segment's `endAngle` is the next
one's `startAngle` (the spec's "contiguous, no gaps, no overlap"). -/
def ContiguousSpans (l : List WheelSegment) : Prop :=
  List.Chain' (fun a b => a.endAngle = b.startAngle) l

/-- Ring-3 grandchildren clause of the partition invariant, for category `p`
with subcategory list `subs` and subcategory `q` with leaf list `leaves`. -/
def LeafPartition (data : FlavorWheelData) (θ : ℚ)
    (p : ℕ × (String × FlavorNode)) (subs : List (String × FlavorNode))
    (q : ℕ × (String × FlavorNode)) (leaves : List (String × FlavorNode)) :
    Prop :=
  ring2Seg p.2.1 (θ + (p.1 : ℚ) * (360 / (data.length : ℚ)))
      (360 / (data.length : ℚ) / (subs.length : ℚ)) 1 q ∈
    flattenToSegments data θ true ∧
  spanOf (ring2Seg p.2.1 (θ + (p.1 : ℚ) * (360 / (data.length : ℚ)))
      (360 / (data.length : ℚ) / (subs.length : ℚ)) 1 q) =
    360 / (data.length : ℚ) / (subs.length : ℚ) ∧
  (∀ s ∈ leafSegs p.2.1 q.2.1
      (θ + (p.1 : ℚ) * (360 / (data.length : ℚ)) +
        (q.1 : ℚ) * (360 / (data.length : ℚ) / (subs.length : ℚ)))
      (360 / (data.length : ℚ) / (subs.length : ℚ)) 1 leaves,
    s ∈ flattenToSegments data θ true) ∧
  (leafSegs p.2.1 q.2.1
      (θ + (p.1 : ℚ) * (360 / (data.length : ℚ)) +
        (q.1 : ℚ) * (360 / (data.length : ℚ) / (subs.length : ℚ)))
      (360 / (data.length : ℚ) / (subs.length : ℚ)) 1 leaves).length =
    leaves.length ∧
  (∀ s ∈ leafSegs p.2.1 q.2.1
      (θ + (p.1 : ℚ) * (360 / (data.length : ℚ)) +
        (q.1 : ℚ) * (360 / (data.length : ℚ) / (subs.length : ℚ)))
      (360 / (data.length : ℚ) / (subs.length : ℚ)) 1 leaves,
    spanOf s =
      spanOf (ring2Seg p.2.1 (θ + (p.1 : ℚ) * (360 / (data.length : ℚ)))
        (360 / (data.length : ℚ) / (subs.length : ℚ)) 1 q) /
        (leaves.length : ℚ)) ∧
  ContiguousSpans (leafSegs p.2.1 q.2.1
      (θ + (p.1 : ℚ) * (360 / (data.length : ℚ)) +
        (q.1 : ℚ) * (360 / (data.length : ℚ) / (subs.length : ℚ)))
      (360 / (data.length : ℚ) / (subs.length : ℚ)) 1 leaves) ∧
  (∀ k (hk : k < (leafSegs p.2.1 q.2.1
      (θ + (p.1 : ℚ) * (360 / (data.length : ℚ)) +
        (q.1 : ℚ) * (360 / (data.length : ℚ) / (subs.length : ℚ)))
      (360 / (data.length : ℚ) / (subs.length : ℚ)) 1 leaves).length),
    ((leafSegs p.2.1 q.2.1
      (θ + (p.1 : ℚ) * (360 / (data.length : ℚ)) +
        (q.1 : ℚ) * (360 / (data.length : ℚ) / (subs.length : ℚ)))
      (360 / (data.length : ℚ) / (subs.length : ℚ)) 1 leaves).get
        ⟨k, hk⟩).startAngle =
      θ + (p.1 : ℚ) * (360 / (data.length : ℚ)) +
        (q.1 : ℚ) * (360 / (data.length : ℚ) / (subs.length : ℚ)) +
        (k : ℚ) * (360 / (data.length : ℚ) / (subs.length : ℚ) /
          (leaves.length : ℚ)) ∧
    ((leafSegs p.2.1 q.2.1
      (θ + (p.1 : ℚ) * (360 / (data.length : ℚ)) +
        (q.1 : ℚ) * (360 / (data.length : ℚ) / (subs.length : ℚ)))
      (360 / (data.length : ℚ) / (subs.length : ℚ)) 1 leaves).get
        ⟨k, hk⟩).endAngle =
      θ + (p.1 : ℚ) * (360 / (data.length : ℚ)) +
        (q.1 : ℚ) * (360 / (data.length : ℚ) / (subs.length : ℚ)) +
        ((k : ℚ) + 1) * (360 / (data.length : ℚ) / (subs.length : ℚ) /
          (leaves.length : ℚ)))

/-- Ring-2 children clause of the partition invariant for category `p` with
subcategory list `subs`: its children are the ring-2 segments of its
sub-block; they appear in the output, each spans the parent's span divided by
the sibling count, and they partition the parent's span contiguously. -/
def CategoryPartition (data : FlavorWheelData) (θ : ℚ)
    (p : ℕ × (String × FlavorNode)) (subs : List (String × FlavorNode)) :
    Prop :=
  ring1Seg θ (360 / (data.length : ℚ)) 1 p ∈ flattenToSegments data θ true ∧
  spanOf (ring1Seg θ (360 / (data.length : ℚ)) 1 p) =
    360 / (data.length : ℚ) ∧
  (∀ s ∈ (subSegs p.2.1 (θ + (p.1 : ℚ) * (360 / (data.length : ℚ)))
      (360 / (data.length : ℚ)) 1 subs).filter (fun s => s.ring == 2),
    s ∈ flattenToSegments data θ true) ∧
  ((subSegs p.2.1 (θ + (p.1 : ℚ) * (360 / (data.length : ℚ)))
      (360 / (data.length : ℚ)) 1 subs).filter
        (fun s => s.ring == 2)).length = subs.length ∧
  (∀ s ∈ (subSegs p.2.1 (θ + (p.1 : ℚ) * (360 / (data.length : ℚ)))
      (360 / (data.length : ℚ)) 1 subs).filter (fun s => s.ring == 2),
    spanOf s = spanOf (ring1Seg θ (360 / (data.length : ℚ)) 1 p) /
      (subs.length : ℚ)) ∧
  ContiguousSpans ((subSegs p.2.1 (θ + (p.1 : ℚ) * (360 / (data.length : ℚ)))
      (360 / (data.length : ℚ)) 1 subs).filter (fun s => s.ring == 2)) ∧
  (∀ j (hj : j < ((subSegs p.2.1
      (θ + (p.1 : ℚ) * (360 / (data.length : ℚ)))
      (360 / (data.length : ℚ)) 1 subs).filter
        (fun s => s.ring == 2)).length),
    (((subSegs p.2.1 (θ + (p.1 : ℚ) * (360 / (data.length : ℚ)))
      (360 / (data.length : ℚ)) 1 subs).filter
        (fun s => s.ring == 2)).get ⟨j, hj⟩).startAngle =
      θ + (p.1 : ℚ) * (360 / (data.length : ℚ)) +
        (j : ℚ) * (360 / (data.length : ℚ) / (subs.length : ℚ)) ∧
    (((subSegs p.2.1 (θ + (p.1 : ℚ) * (360 / (data.length : ℚ)))
      (360 / (data.length : ℚ)) 1 subs).filter
        (fun s => s.ring == 2)).get ⟨j, hj⟩).endAngle =
      θ + (p.1 : ℚ) * (360 / (data.length : ℚ)) +
        ((j : ℚ) + 1) * (360 / (data.length : ℚ) / (subs.length : ℚ))) ∧
  (∀ q ∈ subs.enum, ∀ leaves, q.2.2.children = some leaves →
    LeafPartition data θ p subs q leaves)

/-- The partition invariant of the flattener (C1), for `clockwise = true`:
the ring-1 segments partition the full circle starting at `θ` contiguously,
and every parent's children partition the parent's span contiguously, each
child spanning the parent's span divided by the sibling count. -/
def PartitionInvariant (data : FlavorWheelData) (θ : ℚ) : Prop :=
  (getSegmentsByRing (flattenToSegments data θ true) 1).length = data.length ∧
  ((getSegmentsByRing (flattenToSegments data θ true) 1).map spanOf).sum =
    360 ∧
  ContiguousSpans (getSegmentsByRing (flattenToSegments data θ true) 1) ∧
  (∀ i (hi : i < (getSegmentsByRing (flattenToSegments data θ true) 1).length),
    ((getSegmentsByRing (flattenToSegments data θ true) 1).get
        ⟨i, hi⟩).startAngle = θ + (i : ℚ) * (360 / (data.length : ℚ)) ∧
    ((getSegmentsByRing (flattenToSegments data θ true) 1).get
        ⟨i, hi⟩).endAngle = θ + ((i : ℚ) + 1) * (360 / (data.length : ℚ))) ∧
  (∀ p ∈ data.enum, ∀ subs, p.2.2.children = some subs →
    CategoryPartition data θ p subs)

lemma leafPartition_holds (data : FlavorWheelData) (θ : ℚ)
    (p : ℕ × (String × FlavorNode)) (hp : p ∈ data.enum)
    (subs : List (String × FlavorNode)) (hc : p.2.2.children = some subs)
    (q : ℕ × (String × FlavorNode)) (hq : q ∈ subs.enum)
    (leaves : List (String × FlavorNode)) (hcl : q.2.2.children = some leaves) :
    LeafPartition data θ p subs q leaves := by
  unfold LeafPartition
  refine ⟨?_, ?_, ?_, ?_, ?_, ?_, ?_⟩
  · refine mem_flatten_of_mem_subSegs hp hc ?_
    have h := ring2Seg_mem_subSegs p.2.1
      (θ + (p.1 : ℚ) * (360 / (data.length : ℚ)))
      (360 / (data.length : ℚ)) 1 hq
    simpa [mul_one] using h
  · simp only [spanOf, ring2Seg]
    ring
  · intro s hs
    have h1 : s ∈ subSegs p.2.1 (θ + (p.1 : ℚ) * (360 / (data.length : ℚ)))
        (360 / (data.length : ℚ)) 1 subs :=
      mem_subSegs_of_mem_leafSegs hq hcl (by simpa [mul_one] using hs)
    exact mem_flatten_of_mem_subSegs hp hc
      (by simpa [mul_one] using h1)
  · simp [leafSegs]
  · intro s hs
    simp only [leafSegs] at hs
    obtain ⟨r, -, rfl⟩ := List.mem_map.mp hs
    simp only [spanOf, ring3Seg, ring2Seg]
    ring
  · simp only [leafSegs, ContiguousSpans]
    rw [show leaves.enum = List.enumFrom 0 leaves from rfl]
    apply chain'_enumFrom_map
    intro i x y
    simp only [ring3Seg]
    push_cast
    ring
  · intro k hk
    simp only [leafSegs] at hk ⊢
    rw [getElem_enum_map]
    constructor <;> (simp only [ring3Seg]; ring)

lemma categoryPartition_holds (data : FlavorWheelData) (θ : ℚ)
    (p : ℕ × (String × FlavorNode)) (hp : p ∈ data.enum)
    (subs : List (String × FlavorNode)) (hc : p.2.2.children = some subs) :
    CategoryPartition data θ p subs := by
  unfold CategoryPartition
  refine ⟨?_, ?_, ?_, ?_, ?_, ?_, ?_, ?_⟩
  · exact ring1Seg_mem_flatten hp
  · simp only [spanOf, ring1Seg]
    ring
  · intro s hs
    exact mem_flatten_of_mem_subSegs hp hc
      (by simpa [mul_one] using List.mem_of_mem_filter hs)
  · rw [filter_ring2_subSegs]
    simp
  · intro s hs
    rw [filter_ring2_subSegs] at hs
    obtain ⟨r, -, rfl⟩ := List.mem_map.mp hs
    simp only [spanOf, ring2Seg, ring1Seg]
    ring
  · rw [filter_ring2_subSegs]
    simp only [ContiguousSpans]
    rw [show subs.enum = List.enumFrom 0 subs from rfl]
    apply chain'_enumFrom_map
    intro i x y
    simp only [ring2Seg]
    push_cast
    ring
  · intro j hj
    rw [List.get_of_eq (filter_ring2_subSegs p.2.1
      (θ + (p.1 : ℚ) * (360 / (data.length : ℚ)))
      (360 / (data.length : ℚ)) 1 subs) ⟨j, hj⟩, getElem_enum_map]
    constructor <;> (simp only [ring2Seg]; ring)
  · intro q hq leaves hcl
    exact leafPartition_holds data θ p hp subs hc q hq leaves hcl

/-- C1 (amended): for every NONEMPTY taxonomy, the flattener's output
satisfies the partition invariant: ring-1 spans sum to exactly 360 and are
contiguous, and every parent's children (one ring deeper) span exactly the
parent's span divided by the sibling count, partitioning the parent's span
contiguously with no gaps and no overlap.  (The empty taxonomy is excluded:
see `flatten_empty_sum_ne_360`.) -/
theorem flatten_partition_invariant_nonempty (data : FlavorWheelData) (θ : ℚ)
    (hne : data ≠ []) : PartitionInvariant data θ := by
  have hlen : ((data.length : ℚ)) ≠ 0 := by
    exact_mod_cast fun h => hne (List.length_eq_zero.mp (by exact_mod_cast h))
  unfold PartitionInvariant
  refine ⟨?_, ?_, ?_, ?_, ?_⟩
  · rw [filter_ring1_flatten]
    simp
  · rw [filter_ring1_flatten]
    rw [sum_map_enum_const spanOf _ (360 / (data.length : ℚ)) data
      (fun r => by simp [spanOf, ring1Seg]; ring)]
    field_simp
  · rw [filter_ring1_flatten]
    simp only [ContiguousSpans]
    rw [show data.enum = List.enumFrom 0 data from rfl]
    apply chain'_enumFrom_map
    intro i x y
    simp [ring1Seg]
  · intro i hi
    rw [List.get_of_eq (filter_ring1_flatten data θ true) ⟨i, hi⟩,
      getElem_enum_map]
    constructor <;> simp [ring1Seg]
  · intro p hp subs hc
    exact categoryPartition_holds data θ p hp subs hc

/-! ## C9: every child segment is preceded by its parent -/

/-- Every decomposition of `l` around a segment carrying a `parentId` finds a
matching parent — one ring shallower, with a containing span — among the
already-emitted segments `ctx ++ pre`. -/
def FindsParents (ctx l : List WheelSegment) : Prop :=
  ∀ pre c post, l = pre ++ c :: post → ∀ pid, c.parentId = some pid →
    ∃ par, par ∈ ctx ++ pre ∧ par.id = pid ∧ par.ring + 1 = c.ring ∧
      par.startAngle ≤ c.startAngle ∧ c.endAngle ≤ par.endAngle

lemma findsParents_nil (ctx : List WheelSegment) : FindsParents ctx [] := by
  intro pre c post h
  exact absurd h (by simp)

lemma findsParents_cons {ctx : List WheelSegment} {a : WheelSegment}
    {l : List WheelSegment}
    (ha : ∀ pid, a.parentId = some pid →
      ∃ par, par ∈ ctx ∧ par.id = pid ∧ par.ring + 1 = a.ring ∧
        par.startAngle ≤ a.startAngle ∧ a.endAngle ≤ par.endAngle)
    (hl : FindsParents (ctx ++ [a]) l) : FindsParents ctx (a :: l) := by
  intro pre c post hdec pid hpid
  cases pre with
  | nil =>
    obtain ⟨rfl, -⟩ : a = c ∧ l = post := by
      simpa using hdec
    obtain ⟨par, hmem, hrest⟩ := ha pid hpid
    exact ⟨par, by simpa using hmem, hrest⟩
  | cons x pre' =>
    obtain ⟨rfl, htail⟩ : a = x ∧ l = pre' ++ c :: post := by
      simpa using hdec
    obtain ⟨par, hmem, hrest⟩ := hl pre' c post htail pid hpid
    refine ⟨par, ?_, hrest⟩
    simp only [List.mem_append, List.mem_cons, List.mem_singleton] at hmem ⊢
    tauto

lemma findsParents_append {ctx A B : List WheelSegment}
    (hA : FindsParents ctx A) (hB : FindsParents (ctx ++ A) B) :
    FindsParents ctx (A ++ B) := by
  induction A generalizing ctx with
  | nil =>
    simpa using (by simpa using hB : FindsParents ctx B)
  | cons a A ih =>
    rw [List.cons_append]
    refine findsParents_cons ?_ (ih ?_ ?_)
    · intro pid hpid
      obtain ⟨par, hmem, hrest⟩ := hA [] a A rfl pid hpid
      exact ⟨par, by simpa using hmem, hrest⟩
    · intro pre c post hdec pid hpid
      obtain ⟨par, hmem, hrest⟩ := hA (a :: pre) c post (by rw [hdec]; rfl)
        pid hpid
      refine ⟨par, ?_, hrest⟩
      simp only [List.mem_append, List.mem_cons, List.mem_singleton] at hmem ⊢
      tauto
    · intro pre c post hdec pid hpid
      obtain ⟨par, hmem, hrest⟩ := hB pre c post (by rw [hdec]) pid hpid
      refine ⟨par, ?_, hrest⟩
      simp only [List.mem_append, List.mem_cons, List.mem_singleton] at hmem ⊢
      tauto

lemma findsParents_flatten_pred {L : List (List WheelSegment)}
    (P : List WheelSegment → Prop)
    (Pmono : ∀ ctx ext, P ctx → P (ctx ++ ext))
    (h : ∀ B ∈ L, ∀ ctx, P ctx → FindsParents ctx B) :
    ∀ ctx, P ctx → FindsParents ctx L.flatten := by
  induction L with
  | nil => intro ctx _; exact findsParents_nil ctx
  | cons B L ih =>
    intro ctx hP
    rw [List.flatten_cons]
    refine findsParents_append (h B (List.mem_cons_self _ _) ctx hP) ?_
    exact ih (fun B' hB' => h B' (List.mem_cons_of_mem _ hB'))
      (ctx ++ B) (Pmono ctx B hP)

/-- The element at the split point of a decomposition. -/
lemma decomp_index {α : Type} {l pre post : List α} {c : α}
    (h : l = pre ++ c :: post) : l[pre.length]? = some c := by
  rw [h, List.getElem?_append_right (le_refl _), Nat.sub_self]
  simp

lemma findsParents_leafSegs {catId subId : String} {b0 subStep : ℚ}
    {leaves : List (String × FlavorNode)} {ctx : List WheelSegment}
    (hstep : 0 ≤ subStep) (par : WheelSegment) (hparmem : par ∈ ctx)
    (hid : par.id = catId ++ "-" ++ subId) (hring : par.ring = 2)
    (hstart : par.startAngle = b0) (hend : par.endAngle = b0 + subStep) :
    FindsParents ctx (leafSegs catId subId b0 subStep 1 leaves) := by
  intro pre c post hdec pid hpid
  have hsome := decomp_index hdec
  simp only [leafSegs] at hsome
  rw [List.getElem?_map, List.getElem?_enum] at hsome
  cases hx : leaves[pre.length]? with
  | none => rw [hx] at hsome; cases hsome
  | some x =>
    rw [hx] at hsome
    obtain rfl : ring3Seg catId subId b0 (subStep / (leaves.length : ℚ)) 1
        (pre.length, x) = c := by simpa using hsome
    have hk : pre.length < leaves.length :=
      (List.getElem?_eq_some_iff.mp hx).1
    have hL0 : ((leaves.length : ℚ)) ≠ 0 := by
      have hpos : 0 < leaves.length := Nat.lt_of_le_of_lt (Nat.zero_le _) hk
      positivity
    have hL1 : (0 : ℚ) ≤ subStep / (leaves.length : ℚ) :=
      div_nonneg hstep (by positivity)
    have hpid' : pid = catId ++ "-" ++ subId := by
      have := hpid
      simp only [ring3Seg] at this
      exact (Option.some_injective _ this).symm
    refine ⟨par, List.mem_append_left _ hparmem, by rw [hid, hpid'], ?_, ?_, ?_⟩
    · simp [ring3Seg, hring]
    · rw [hstart]
      simp only [ring3Seg]
      have h0 : (0 : ℚ) ≤ (pre.length : ℚ) * (subStep / (leaves.length : ℚ)) * 1 :=
        by positivity
      linarith
    · rw [hend]
      simp only [ring3Seg]
      have hle : ((pre.length : ℚ) + 1) ≤ (leaves.length : ℚ) := by
        exact_mod_cast Nat.succ_le_of_lt hk
      have h2 : ((pre.length : ℚ) + 1) * (subStep / (leaves.length : ℚ)) ≤
          (leaves.length : ℚ) * (subStep / (leaves.length : ℚ)) :=
        mul_le_mul_of_nonneg_right hle hL1
      have h3 : ((leaves.length : ℚ)) * (subStep / (leaves.length : ℚ)) =
          subStep := by
        rw [mul_comm, div_mul_cancel₀ _ hL0]
      linarith

lemma findsParents_subSegs {catId : String} {a0 step : ℚ}
    {subs : List (String × FlavorNode)} {ctx : List WheelSegment}
    (hstep : 0 ≤ step) (par : WheelSegment) (hparmem : par ∈ ctx)
    (hid : par.id = catId) (hring : par.ring = 1)
    (hstart : par.startAngle = a0) (hend : par.endAngle = a0 + step) :
    FindsParents ctx (subSegs catId a0 step 1 subs) := by
  have hsub0 : (0 : ℚ) ≤ step / (subs.length : ℚ) :=
    div_nonneg hstep (by positivity)
  simp only [subSegs]
  refine findsParents_flatten_pred (fun ctx' => par ∈ ctx')
    (fun c e h => List.mem_append_left _ h) ?_ ctx hparmem
  intro B hB ctx' hP
  obtain ⟨q, hq, rfl⟩ := List.mem_map.mp hB
  have hj : q.1 < subs.length := by
    have h := List.fst_lt_add_of_mem_enumFrom
      (show q ∈ List.enumFrom 0 subs from hq)
    simpa using h
  have hN0 : ((subs.length : ℚ)) ≠ 0 := by
    have hpos : 0 < subs.length := Nat.lt_of_le_of_lt (Nat.zero_le _) hj
    positivity
  refine findsParents_cons ?_ ?_
  · intro pid hpid
    have hpid' : pid = catId := by
      have h := hpid
      simp only [ring2Seg] at h
      exact (Option.some_injective _ h).symm
    refine ⟨par, hP, by rw [hid, hpid'], ?_, ?_, ?_⟩
    · simp [ring2Seg, hring]
    · rw [hstart]
      simp only [ring2Seg]
      have h0 : (0 : ℚ) ≤ (q.1 : ℚ) * (step / (subs.length : ℚ)) * 1 := by
        positivity
      linarith
    · rw [hend]
      simp only [ring2Seg]
      have hle : ((q.1 : ℚ) + 1) ≤ (subs.length : ℚ) := by
        exact_mod_cast Nat.succ_le_of_lt hj
      have h2 : ((q.1 : ℚ) + 1) * (step / (subs.length : ℚ)) ≤
          (subs.length : ℚ) * (step / (subs.length : ℚ)) :=
        mul_le_mul_of_nonneg_right hle hsub0
      have h3 : ((subs.length : ℚ)) * (step / (subs.length : ℚ)) = step := by
        rw [mul_comm, div_mul_cancel₀ _ hN0]
      linarith
  · cases hc : q.2.2.children with
    | none => exact findsParents_nil _
    | some leaves =>
      refine findsParents_leafSegs hsub0
        (ring2Seg catId a0 (step / (subs.length : ℚ)) 1 q)
        (List.mem_append_right _ (by simp)) rfl rfl rfl ?_
      simp only [ring2Seg]
      ring

lemma findsParents_block (data : FlavorWheelData) (θ : ℚ)
    (p : ℕ × (String × FlavorNode)) :
    ∀ ctx, FindsParents ctx
      (ring1Seg θ (360 / (data.length : ℚ)) (if true then 1 else -1) p ::
        (match p.2.2.children with
          | none => []
          | some subs =>
              subSegs p.2.1
                (θ + (p.1 : ℚ) * (360 / (data.length : ℚ)) *
                  (if true then 1 else -1))
                (360 / (data.length : ℚ)) (if true then 1 else -1) subs)) := by
  intro ctx
  refine findsParents_cons ?_ ?_
  · intro pid hpid
    simp [ring1Seg] at hpid
  · cases hc : p.2.2.children with
    | none => exact findsParents_nil _
    | some subs =>
      refine findsParents_subSegs (by positivity)
        (ring1Seg θ (360 / (data.length : ℚ)) 1 p)
        (List.mem_append_right _ (by simp)) rfl rfl rfl ?_
      show θ + ((p.1 : ℚ) + 1) * (360 / (data.length : ℚ)) * 1 =
        θ + (p.1 : ℚ) * (360 / (data.length : ℚ)) * 1 +
          360 / (data.length : ℚ)
      ring

/-- C9's statement: in the clockwise flattening, every segment that carries a
`parentId` is preceded in the output by a segment with that id, one ring
shallower, whose span contains the child's; and every segment's `categoryId`
is the id of a ring-1 segment of the output. -/
def ParentPrecedes (data : FlavorWheelData) (θ : ℚ) : Prop :=
  (∀ pre c post, flattenToSegments data θ true = pre ++ c :: post →
    ∀ pid, c.parentId = some pid →
      ∃ par, par ∈ pre ∧ par.id = pid ∧ par.ring + 1 = c.ring ∧
        par.startAngle ≤ c.startAngle ∧ c.endAngle ≤ par.endAngle) ∧
  (∀ s ∈ flattenToSegments data θ true,
    ∃ t, t ∈ flattenToSegments data θ true ∧ t.ring = 1 ∧
      t.id = s.categoryId)

/-- C9: every child segment is preceded in the flattener's output by its
parent segment (same id as the child's `parentId`, ring one less, containing
span), and every `categoryId` names a ring-1 segment of the output. -/
theorem segments_parent_precedes (data : FlavorWheelData) (θ : ℚ) :
    ParentPrecedes data θ := by
  constructor
  · intro pre c post hdec pid hpid
    have htop : FindsParents [] (flattenToSegments data θ true) := by
      unfold flattenToSegments
      exact findsParents_flatten_pred (fun _ => True) (fun _ _ _ => trivial)
        (fun B hB ctx _ => by
          obtain ⟨p, hp, rfl⟩ := List.mem_map.mp hB
          exact findsParents_block data θ p ctx) [] trivial
    obtain ⟨par, hmem, hrest⟩ := htop pre c post hdec pid hpid
    exact ⟨par, by simpa using hmem, hrest⟩
  · intro s hs
    rw [show flattenToSegments data θ true =
      (data.enum.map (fun p =>
        ring1Seg θ (360 / (data.length : ℚ)) (if true then 1 else -1) p ::
          (match p.2.2.children with
            | none => []
            | some subs =>
                subSegs p.2.1
                  (θ + (p.1 : ℚ) * (360 / (data.length : ℚ)) *
                    (if true then 1 else -1))
                  (360 / (data.length : ℚ)) (if true then 1 else -1)
                  subs))).flatten from rfl] at hs
    obtain ⟨B, hB, hsB⟩ := List.mem_flatten.mp hs
    obtain ⟨p, hp, rfl⟩ := List.mem_map.mp hB
    refine ⟨ring1Seg θ (360 / (data.length : ℚ)) (if true then 1 else -1) p,
      ring1Seg_mem_flatten hp, rfl, ?_⟩
    rcases List.mem_cons.mp hsB with rfl | hsub
    · rfl
    · cases hc : p.2.2.children with
      | none => rw [hc] at hsub; cases hsub
      | some subs =>
        rw [hc] at hsub
        exact (mem_subSegs_categoryId hsub).symm

/-- Witness for C1's amended theorem at the concrete example taxonomy. -/
theorem flatten_partition_invariant_nonempty_witness :
    exData ≠ [] ∧ PartitionInvariant exData 0 :=
  ⟨by simp [exData],
   flatten_partition_invariant_nonempty exData 0 (by simp [exData])⟩

/-- The three segments of the example taxonomy's flattening. -/
def segA : WheelSegment :=
  { id := "a", ring := 1, name := "A", description := "d",
    startAngle := 0, endAngle := 180, parentId := none, categoryId := "a" }

def segAX : WheelSegment :=
  { id := "a-x", ring := 2, name := "X", description := "dx",
    startAngle := 0, endAngle := 180, parentId := some "a", categoryId := "a" }

def segB : WheelSegment :=
  { id := "b", ring := 1, name := "B", description := "d2",
    startAngle := 180, endAngle := 360, parentId := none, categoryId := "b" }

lemma flatten_exData_eq :
    flattenToSegments exData 0 true = [segA] ++ segAX :: [segB] := by
  unfold flattenToSegments exData subSegs leafSegs segA segAX segB
  simp [List.enum, List.enumFrom, ring1Seg, ring2Seg, ring3Seg,
    FlavorNode.children, FlavorNode.name, FlavorNode.description]
  norm_num

/-- Witness for C9 at the concrete example taxonomy: the ring-2 segment
`"a-x"` sits at position 1 of the output, and the theorem finds its parent
`"a"` among the segments before it. -/
theorem segments_parent_precedes_witness :
    ParentPrecedes exData 0 ∧
    (∃ par, par ∈ [segA] ∧ par.id = "a" ∧ par.ring + 1 = segAX.ring ∧
      par.startAngle ≤ segAX.startAngle ∧ segAX.endAngle ≤ par.endAngle) := by
  have hthm := segments_parent_precedes exData 0
  exact ⟨hthm, hthm.1 _ _ _ flatten_exData_eq "a" rfl⟩

/-! ## Gesture controller (`src/components/FlavorWheel.tsx`)

The gesture state is `rotation`/`zoom` (React state), `dragRef` and
`pinchRef`; the handlers are embedded as a step function over this record.

* Pointer events carry the polar angle already computed by `angleFromEvent`
  (an `atan2` expression whose value always lies in `[0, 360)`); touch events
  carry the raw touch-point lists, as in the source.
* JavaScript numbers on the zoom path are embedded as `JSNum` — a tagged
  real with `NaN` and the two infinities — because the pinch-scale division
  can divide by a zero baseline distance.  Operations implement the
  IEEE-754/JavaScript rules for these tags (`Math.max`/`Math.min` return
  `NaN` whenever an operand is `NaN`); signed zeros are not modelled, and
  only finite operands arise on the code paths that reach division.
* Real-valued constants (`0.002`, `0.5`) are exact here; the float rounding
  of the source constants plays no role in any claim below. -/

inductive JSNum where
  | nan
  | inf
  | ninf
  | num (x : ℝ)

noncomputable def jsSub : JSNum → JSNum → JSNum
  | .nan, _ => .nan
  | _, .nan => .nan
  | .num a, .num b => .num (a - b)
  | .inf, .inf => .nan
  | .inf, _ => .inf
  | .ninf, .ninf => .nan
  | .ninf, _ => .ninf
  | .num _, .inf => .ninf
  | .num _, .ninf => .inf

noncomputable def jsMul : JSNum → JSNum → JSNum
  | .nan, _ => .nan
  | _, .nan => .nan
  | .num a, .num b => .num (a * b)
  | .inf, .num b => if 0 < b then .inf else if b < 0 then .ninf else .nan
  | .num a, .inf => if 0 < a then .inf else if a < 0 then .ninf else .nan
  | .ninf, .num b => if 0 < b then .ninf else if b < 0 then .inf else .nan
  | .num a, .ninf => if 0 < a then .ninf else if a < 0 then .inf else .nan
  | .inf, .inf => .inf
  | .inf, .ninf => .ninf
  | .ninf, .inf => .ninf
  | .ninf, .ninf => .inf

noncomputable def jsDiv : JSNum → JSNum → JSNum
  | .nan, _ => .nan
  | _, .nan => .nan
  | .num a, .num b =>
      if b = 0 then (if a = 0 then .nan else if 0 < a then .inf else .ninf)
      else .num (a / b)
  | .inf, .num b => if 0 ≤ b then .inf else .ninf
  | .ninf, .num b => if 0 ≤ b then .ninf else .inf
  | .num _, .inf => .num 0
  | .num _, .ninf => .num 0
  | .inf, .inf => .nan
  | .inf, .ninf => .nan
  | .ninf, .inf => .nan
  | .ninf, .ninf => .nan

noncomputable def jsMax : JSNum → JSNum → JSNum
  | .nan, _ => .nan
  | _, .nan => .nan
  | .inf, _ => .inf
  | _, .inf => .inf
  | .ninf, y => y
  | x, .ninf => x
  | .num a, .num b => .num (max a b)

noncomputable def jsMin : JSNum → JSNum → JSNum
  | .nan, _ => .nan
  | _, .nan => .nan
  | .ninf, _ => .ninf
  | _, .ninf => .ninf
  | .inf, y => y
  | x, .inf => x
  | .num a, .num b => .num (min a b)

def ZOOM_MIN : ℝ := 0.5

def ZOOM_MAX : ℝ := 3

def ZOOM_SENSITIVITY : ℝ := 0.002

/-- The view state owned by the component: `rotation`/`zoom` React state plus
the `dragRef` (start angle, start rotation) and `pinchRef`
(initial distance, initial zoom) refs. -/
structure WheelState where
  rotation : ℝ
  zoom : JSNum
  drag : Option (ℝ × ℝ)
  pinch : Option (ℝ × JSNum)

inductive Event where
  | pointerDown (button : ℕ) (angle : ℝ)
  | pointerMove (angle : ℝ)
  | pointerUp
  | wheel (deltaY : ℝ)
  | touchStart (touches : List (ℝ × ℝ))
  | touchMove (touches : List (ℝ × ℝ))
  | touchEnd (touches : List (ℝ × ℝ))

/-- `Math.hypot` of the first two touch points; only called by the source
under a two-touch guard. -/
noncomputable def getTouchDistance : List (ℝ × ℝ) → ℝ
  | a :: b :: _ => Real.sqrt ((b.1 - a.1) ^ 2 + (b.2 - a.2) ^ 2)
  | _ => 0

noncomputable def handlePointerDown (s : WheelState) (button : ℕ)
    (angle : ℝ) : WheelState :=
  if button ≠ 0 then s else { s with drag := some (angle, s.rotation) }

noncomputable def handlePointerMove (s : WheelState) (angle : ℝ) :
    WheelState :=
  match s.drag with
  | none => s
  | some (startAngle, startRotation) =>
      let d0 := angle - startAngle
      let d1 := if d0 > 180 then d0 - 360 else d0
      let d2 := if d1 < -180 then d1 + 360 else d1
      { s with rotation := startRotation + d2 }

def handlePointerUp (s : WheelState) : WheelState :=
  { s with drag := none }

noncomputable def handleWheel (s : WheelState) (deltaY : ℝ) : WheelState :=
  { s with zoom := jsMin (.num ZOOM_MAX) (jsMax (.num ZOOM_MIN)
      (jsSub s.zoom (.num (deltaY * ZOOM_SENSITIVITY)))) }

noncomputable def handleTouchStart (s : WheelState)
    (touches : List (ℝ × ℝ)) : WheelState :=
  if touches.length = 2 then
    { s with pinch := some (getTouchDistance touches, s.zoom) }
  else s

noncomputable def handleTouchMove (s : WheelState)
    (touches : List (ℝ × ℝ)) : WheelState :=
  if touches.length = 2 then
    match s.pinch with
    | none => s
    | some (d0, z0) =>
        { s with zoom := jsMin (.num ZOOM_MAX) (jsMax (.num ZOOM_MIN)
            (jsMul z0 (jsDiv (.num (getTouchDistance touches)) (.num d0)))) }
  else s

def handleTouchEnd (s : WheelState) (touches : List (ℝ × ℝ)) : WheelState :=
  if touches.length < 2 then { s with pinch := none } else s

noncomputable def handleEvent (s : WheelState) : Event → WheelState
  | .pointerDown b a => handlePointerDown s b a
  | .pointerMove a => handlePointerMove s a
  | .pointerUp => handlePointerUp s
  | .wheel dy => handleWheel s dy
  | .touchStart ts => handleTouchStart s ts
  | .touchMove ts => handleTouchMove s ts
  | .touchEnd ts => handleTouchEnd s ts

/-- Mount state: `rotation = 0`, `zoom = 1`, no active gesture. -/
noncomputable def initState : WheelState :=
  { rotation := 0, zoom := .num 1, drag := none, pinch := none }

noncomputable def runEvents (s : WheelState) (es : List Event) : WheelState :=
  es.foldl handleEvent s

/-- `getTooltipPosition` from `src/components/FlavorWheel.tsx`.  The window's
half-dimensions (`window.innerWidth / 2`, `window.innerHeight / 2`, the
viewport's geometric center) are passed as the parameters `vw`, `vh`.
`Math.hypot(dx, dy) || 1` yields `1` exactly when the hypotenuse is `0`
(for finite inputs it is never `NaN`), embedded as an if-zero test. -/
noncomputable def getTooltipPosition (segmentViewportX segmentViewportY
    vw vh : ℝ) : ℝ × ℝ :=
  let dx := vw - segmentViewportX
  let dy := vh - segmentViewportY
  let len := if Real.sqrt (dx ^ 2 + dy ^ 2) = 0 then 1
    else Real.sqrt (dx ^ 2 + dy ^ 2)
  (segmentViewportX + dx / len * 100, segmentViewportY + dy / len * 100)

/-- C3 counterexample: with drag anchor angle 180, start rotation 0, a move
to angle 0 has raw delta exactly −180, which the code leaves as −180 (both
guards are strict), so the new rotation is −180; normalizing −180 into
(−180, 180] by adding 360 once would instead give +180, so the claim's
prescribed result is 0 + 180 = 180 ≠ −180. -/
theorem pointerMove_boundary_neg180 :
    (handlePointerMove ⟨0, .num 1, some (180, 0), none⟩ 0).rotation = -180 ∧
    (-180 : ℝ) ≠ 0 + 180 ∧
    (0 : ℝ) - 180 + 360 = 180 ∧ (-180 : ℝ) < 180 ∧ (180 : ℝ) ≤ 180 := by
  refine ⟨?_, by norm_num, by norm_num, by norm_num, le_refl _⟩
  simp only [handlePointerMove]
  norm_num

/-- C3's (amended) specification of a pointer move while dragging: the new
rotation is the anchor rotation plus a delta that lies in the CLOSED interval
[−180, 180], agrees with the raw difference modulo one addition or
subtraction of 360, equals the raw difference exactly when |A1 − A0| < 180,
and is +20 for the boundary-crossing example A0 = 350, A1 = 10. -/
def MoveDeltaSpec (s : WheelState) (A0 R0 A1 : ℝ) : Prop :=
  ∃ δ, (handlePointerMove s A1).rotation = R0 + δ ∧
    -180 ≤ δ ∧ δ ≤ 180 ∧
    (δ = A1 - A0 ∨ δ = A1 - A0 + 360 ∨ δ = A1 - A0 - 360) ∧
    (|A1 - A0| < 180 → δ = A1 - A0) ∧
    (A0 = 350 → A1 = 10 → δ = 20)

/-- C3 (amended): for raw angles in [0, 360), a pointer move while dragging
sets the rotation to the anchor rotation plus the raw delta normalized into
[−180, 180] by adding or subtracting 360 once (a delta of exactly −180 is
kept as −180, not mapped to +180); when |A1 − A0| < 180 the delta is exact,
and the wrap example 350 → 10 gives +20. -/
theorem pointerMove_delta_normalized_amended :
    ∀ (s : WheelState) (A0 R0 A1 : ℝ), s.drag = some (A0, R0) →
      0 ≤ A0 → A0 < 360 → 0 ≤ A1 → A1 < 360 → MoveDeltaSpec s A0 R0 A1 := by
  intro s A0 R0 A1 hdrag h0 h1 h2 h3
  unfold MoveDeltaSpec handlePointerMove
  rw [hdrag]
  by_cases hgt : A1 - A0 > 180
  · refine ⟨A1 - A0 - 360, ?_, by linarith, by linarith,
      Or.inr (Or.inr rfl), ?_, ?_⟩
    · simp only [if_pos hgt, if_neg (show ¬(A1 - A0 - 360 < -180) by linarith)]
    · intro habs
      rw [abs_lt] at habs
      linarith [habs.2]
    · intro hA0 hA1
      rw [hA0, hA1] at hgt
      linarith
  · by_cases hlt : A1 - A0 < -180
    · refine ⟨A1 - A0 + 360, ?_, by linarith, by linarith,
        Or.inr (Or.inl rfl), ?_, ?_⟩
      · simp only [if_neg hgt, if_pos hlt]
      · intro habs
        rw [abs_lt] at habs
        linarith [habs.1]
      · intro hA0 hA1
        rw [hA0, hA1]
        norm_num
    · refine ⟨A1 - A0, ?_, by linarith, by linarith, Or.inl rfl,
        fun _ => rfl, ?_⟩
      · simp only [if_neg hgt, if_neg hlt]
      · intro hA0 hA1
        rw [hA0, hA1] at hlt
        norm_num at hlt

/-- Witness for C3's amended theorem: the wrap example A0 = 350, A1 = 10. -/
theorem pointerMove_delta_normalized_amended_witness :
    (({ rotation := 0, zoom := .num 1, drag := some (350, 0),
        pinch := none } : WheelState).drag = some (350, 0) ∧
      (0 : ℝ) ≤ 350 ∧ (350 : ℝ) < 360 ∧ (0 : ℝ) ≤ 10 ∧ (10 : ℝ) < 360) ∧
    MoveDeltaSpec ⟨0, .num 1, some (350, 0), none⟩ 350 0 10 :=
  ⟨⟨rfl, by norm_num, by norm_num, by norm_num, by norm_num⟩,
   pointerMove_delta_normalized_amended ⟨0, .num 1, some (350, 0), none⟩
     350 0 10 rfl (by norm_num) (by norm_num) (by norm_num) (by norm_num)⟩

/-- C4: starting from the mount state, a pinch whose two touch points
coincide at touch-start (baseline distance 0) and still coincide at
touch-move (current distance 0) drives the zoom to `NaN`: the scale is
`0 / 0 = NaN`, and `Math.min(3, Math.max(0.5, NaN))` is `NaN`, which the
clamp does not catch — the zoom leaves [0.5, 3]. -/
theorem pinch_zero_distance_zoom_nan :
    (runEvents initState [.touchStart [(0, 0), (0, 0)],
      .touchMove [(0, 0), (0, 0)]]).zoom = .nan ∧
    ¬ ∃ x : ℝ, (runEvents initState [.touchStart [(0, 0), (0, 0)],
      .touchMove [(0, 0), (0, 0)]]).zoom = .num x ∧
        ZOOM_MIN ≤ x ∧ x ≤ ZOOM_MAX := by
  have hdist : getTouchDistance [((0 : ℝ), (0 : ℝ)), (0, 0)] = 0 := by
    simp [getTouchDistance]
  have hz : (runEvents initState [.touchStart [(0, 0), (0, 0)],
      .touchMove [(0, 0), (0, 0)]]).zoom = .nan := by
    simp only [runEvents, List.foldl, handleEvent, handleTouchStart,
      handleTouchMove, initState, hdist]
    norm_num [jsDiv, jsMul, jsMax, jsMin]
  refine ⟨hz, ?_⟩
  rintro ⟨x, hx, -⟩
  rw [hz] at hx
  cases hx

/-- C5: division-by-zero guard status.  (i) The pinch path is NOT guarded:
with a recorded baseline distance of 0 and initial zoom 1, a touch-move with
coincident points computes scale `0 / 0 = NaN` and stores zoom `NaN` — not
the safe ratio 1 (which would leave the zoom at 1).  (ii) The tooltip
direction of zero length IS guarded (`|| 1`): at the exact center the
position is well-defined (no division by zero).  (iii) The flattener IS safe
for an empty-children map: the degenerate ring is skipped and no segment
with undefined angles is produced. -/
theorem division_guards_status :
    ((handleTouchMove ⟨0, .num 1, none, some (0, .num 1)⟩
        [(0, 0), (0, 0)]).zoom = .nan ∧ JSNum.nan ≠ .num 1) ∧
    getTooltipPosition 400 400 400 400 = (400, 400) ∧
    flattenToSegments [("a", FlavorNode.mk "A" "d" (some []))] 0 true =
      [{ id := "a", ring := 1, name := "A", description := "d",
         startAngle := 0, endAngle := 360, parentId := none,
         categoryId := "a" }] := by
  refine ⟨⟨?_, by simp⟩, ?_, ?_⟩
  · have hdist : getTouchDistance [((0 : ℝ), (0 : ℝ)), (0, 0)] = 0 := by
      simp [getTouchDistance]
    simp only [handleTouchMove, hdist]
    norm_num [jsDiv, jsMul, jsMax, jsMin]
  · simp [getTooltipPosition]
  · unfold flattenToSegments subSegs
    simp [List.enum, List.enumFrom, ring1Seg, FlavorNode.name,
      FlavorNode.description, FlavorNode.children]

/-- C8's statement: non-primary pointer-down is a no-op; pointer-move with no
drag anchor is a no-op; the rotate-drag handlers never touch `zoom`/`pinch`;
the wheel and touch (pinch) handlers never touch `rotation`/`drag`. -/
def GestureFrameSpec : Prop :=
  (∀ (s : WheelState) (b : ℕ) (a : ℝ), b ≠ 0 →
    handlePointerDown s b a = s) ∧
  (∀ (s : WheelState) (a : ℝ), s.drag = none →
    handlePointerMove s a = s) ∧
  (∀ (s : WheelState) (b : ℕ) (a : ℝ),
    (handlePointerDown s b a).zoom = s.zoom ∧
    (handlePointerDown s b a).pinch = s.pinch) ∧
  (∀ (s : WheelState) (a : ℝ),
    (handlePointerMove s a).zoom = s.zoom ∧
    (handlePointerMove s a).pinch = s.pinch) ∧
  (∀ s : WheelState,
    (handlePointerUp s).zoom = s.zoom ∧
    (handlePointerUp s).pinch = s.pinch) ∧
  (∀ (s : WheelState) (dy : ℝ),
    (handleWheel s dy).rotation = s.rotation ∧
    (handleWheel s dy).drag = s.drag) ∧
  (∀ (s : WheelState) (ts : List (ℝ × ℝ)),
    (handleTouchStart s ts).rotation = s.rotation ∧
    (handleTouchStart s ts).drag = s.drag) ∧
  (∀ (s : WheelState) (ts : List (ℝ × ℝ)),
    (handleTouchMove s ts).rotation = s.rotation ∧
    (handleTouchMove s ts).drag = s.drag) ∧
  (∀ (s : WheelState) (ts : List (ℝ × ℝ)),
    (handleTouchEnd s ts).rotation = s.rotation ∧
    (handleTouchEnd s ts).drag = s.drag)

/-- C8: a non-primary-button pointer-down leaves the entire view state
unchanged; a pointer-move with no drag anchor leaves it unchanged;
rotate-drag events never modify the zoom track's fields, and wheel/pinch
events never modify the rotation track's fields. -/
theorem gesture_frame_effects : GestureFrameSpec := by
  refine ⟨?_, ?_, ?_, ?_, ?_, ?_, ?_, ?_, ?_⟩
  · intro s b a hb
    unfold handlePointerDown
    rw [if_pos hb]
  · intro s a hd
    unfold handlePointerMove
    rw [hd]
  · intro s b a
    unfold handlePointerDown
    by_cases hb : b ≠ 0
    · rw [if_pos hb]; exact ⟨rfl, rfl⟩
    · rw [if_neg hb]; exact ⟨rfl, rfl⟩
  · intro s a
    unfold handlePointerMove
    cases hd : s.drag with
    | none => exact ⟨rfl, rfl⟩
    | some p => exact ⟨rfl, rfl⟩
  · intro s
    exact ⟨rfl, rfl⟩
  · intro s dy
    exact ⟨rfl, rfl⟩
  · intro s ts
    unfold handleTouchStart
    by_cases h : ts.length = 2
    · rw [if_pos h]; exact ⟨rfl, rfl⟩
    · rw [if_neg h]; exact ⟨rfl, rfl⟩
  · intro s ts
    unfold handleTouchMove
    by_cases h : ts.length = 2
    · rw [if_pos h]
      cases hp : s.pinch with
      | none => exact ⟨rfl, rfl⟩
      | some p => exact ⟨rfl, rfl⟩
    · rw [if_neg h]; exact ⟨rfl, rfl⟩
  · intro s ts
    unfold handleTouchEnd
    by_cases h : ts.length < 2
    · rw [if_pos h]; exact ⟨rfl, rfl⟩
    · rw [if_neg h]; exact ⟨rfl, rfl⟩

/-- Witness for C8 at concrete inputs: a right-button (button 2) pointer-down
and an anchorless pointer-move at the mount state are both no-ops. -/
theorem gesture_frame_effects_witness :
    ((2 : ℕ) ≠ 0 ∧ handlePointerDown initState 2 45 = initState) ∧
    (initState.drag = none ∧ handlePointerMove initState 45 = initState) :=
  ⟨⟨by norm_num, gesture_frame_effects.1 initState 2 45 (by norm_num)⟩,
   ⟨rfl, gesture_frame_effects.2.1 initState 45 rfl⟩⟩

/-- C7's statement at a segment screen position `(sx, sy)` and viewport
center `(vw, vh)`: away from the center the tooltip sits at Euclidean
distance exactly 100 from the segment point, displaced by a positive
multiple of the direction vector toward the center; at the center the
`|| 1` fallback makes the result well-defined (the segment point itself). -/
def TooltipSpecAt (sx sy vw vh : ℝ) : Prop :=
  ((sx, sy) = (vw, vh) → getTooltipPosition sx sy vw vh = (sx, sy)) ∧
  ((sx, sy) ≠ (vw, vh) →
    Real.sqrt (((getTooltipPosition sx sy vw vh).1 - sx) ^ 2 +
      ((getTooltipPosition sx sy vw vh).2 - sy) ^ 2) = 100 ∧
    ∃ t, 0 < t ∧ (getTooltipPosition sx sy vw vh).1 - sx = t * (vw - sx) ∧
      (getTooltipPosition sx sy vw vh).2 - sy = t * (vh - sy))

/-- C7: the tooltip position is exactly 100 pixels from the segment point,
in the direction from the segment point toward the viewport center; when the
segment point coincides with the center the zero-length direction is treated
as length 1, so the result is well-defined. -/
theorem tooltipPosition_offset_spec :
    ∀ sx sy vw vh : ℝ, TooltipSpecAt sx sy vw vh := by
  intro sx sy vw vh
  constructor
  · intro heq
    have h : sx = vw ∧ sy = vh := by simpa [Prod.ext_iff] using heq
    obtain ⟨h1, h2⟩ := h
    subst h1
    subst h2
    simp [getTooltipPosition]
  · intro hne
    have hq : 0 < (vw - sx) ^ 2 + (vh - sy) ^ 2 := by
      rcases lt_or_eq_of_le (by positivity :
          (0 : ℝ) ≤ (vw - sx) ^ 2 + (vh - sy) ^ 2) with h | h
      · exact h
      · exfalso
        have hdx : vw - sx = 0 := by nlinarith [sq_nonneg (vw - sx), sq_nonneg (vh - sy)]
        have hdy : vh - sy = 0 := by nlinarith [sq_nonneg (vw - sx), sq_nonneg (vh - sy)]
        exact hne (by rw [show vw = sx by linarith, show vh = sy by linarith])
    have hs : 0 < Real.sqrt ((vw - sx) ^ 2 + (vh - sy) ^ 2) :=
      Real.sqrt_pos.mpr hq
    have hh2 : Real.sqrt ((vw - sx) ^ 2 + (vh - sy) ^ 2) ^ 2 =
        (vw - sx) ^ 2 + (vh - sy) ^ 2 := Real.sq_sqrt hq.le
    have hlen : getTooltipPosition sx sy vw vh =
        (sx + (vw - sx) / Real.sqrt ((vw - sx) ^ 2 + (vh - sy) ^ 2) * 100,
         sy + (vh - sy) / Real.sqrt ((vw - sx) ^ 2 + (vh - sy) ^ 2) * 100) := by
      simp only [getTooltipPosition]
      rw [if_neg hs.ne']
    rw [hlen]
    constructor
    · have hinner :
          (sx + (vw - sx) / Real.sqrt ((vw - sx) ^ 2 + (vh - sy) ^ 2) * 100
            - sx) ^ 2 +
          (sy + (vh - sy) / Real.sqrt ((vw - sx) ^ 2 + (vh - sy) ^ 2) * 100
            - sy) ^ 2 = 10000 := by
        have hexp :
            (sx + (vw - sx) / Real.sqrt ((vw - sx) ^ 2 + (vh - sy) ^ 2) * 100
              - sx) ^ 2 +
            (sy + (vh - sy) / Real.sqrt ((vw - sx) ^ 2 + (vh - sy) ^ 2) * 100
              - sy) ^ 2 =
            ((vw - sx) ^ 2 + (vh - sy) ^ 2) /
              Real.sqrt ((vw - sx) ^ 2 + (vh - sy) ^ 2) ^ 2 * 10000 := by
          ring
        rw [hexp, hh2, div_self hq.ne']
        norm_num
      rw [hinner, show (10000 : ℝ) = 100 ^ 2 by norm_num,
        Real.sqrt_sq (by norm_num)]
    · refine ⟨100 / Real.sqrt ((vw - sx) ^ 2 + (vh - sy) ^ 2),
        div_pos (by norm_num) hs, by ring, by ring⟩

/-- Witness for C7 at the concrete segment point (0, 0) with viewport center
(300, 400): distance 500 from the center, tooltip at (60, 80). -/
theorem tooltipPosition_offset_spec_witness :
    (((0 : ℝ), (0 : ℝ)) ≠ ((300 : ℝ), (400 : ℝ))) ∧
    TooltipSpecAt 0 0 300 400 :=
  ⟨by norm_num [Prod.ext_iff], tooltipPosition_offset_spec 0 0 300 400⟩


/-- The 8-bit channel of a `#rrggbb` color string at a byte shift
(65536 = red, 256 = green, 1 = blue). -/
def channelAt (s : String) (shift : ℕ) : ℕ :=
  parseHex (s.drop 1) / shift % 256

/-- A hexadecimal digit character. -/
def isHexDigit (c : Char) : Bool :=
  ('0' ≤ c && c ≤ '9') || ('a' ≤ c && c ≤ 'f') || ('A' ≤ c && c ≤ 'F')

/-- C10's (amended) statement for a category id and ring: the fill is a
7-character `#rrggbb` string of hexadecimal digits, and each channel is at
least the corresponding channel of the ring-1 base color and at most 255. -/
def FillSpecAt (cid : String) (ring : ℕ) : Prop :=
  (getSegmentFill cid ring).length = 7 ∧
  (getSegmentFill cid ring).front = '#' ∧
  (∀ ch ∈ ((getSegmentFill cid ring).drop 1).data, isHexDigit ch = true) ∧
  channelAt (getSegmentFill cid 1) 65536 ≤
    channelAt (getSegmentFill cid ring) 65536 ∧
  channelAt (getSegmentFill cid ring) 65536 ≤ 255 ∧
  channelAt (getSegmentFill cid 1) 256 ≤
    channelAt (getSegmentFill cid ring) 256 ∧
  channelAt (getSegmentFill cid ring) 256 ≤ 255 ∧
  channelAt (getSegmentFill cid 1) 1 ≤ channelAt (getSegmentFill cid ring) 1 ∧
  channelAt (getSegmentFill cid ring) 1 ≤ 255

lemma fill_vegetale_1 : getSegmentFill "vegetale" 1 = "#4a7c4a" := by decide

lemma fill_vegetale_2 : getSegmentFill "vegetale" 2 = "#6e966e" := by
  have hbase : (CATEGORY_BASE.lookup "vegetale").getD "#888" = "#4a7c4a" := by decide
  simp only [getSegmentFill, hbase]
  norm_num
  unfold lighten
  rw [show parseHex ("#4a7c4a".drop 1) = 4881482 from by decide]
  norm_num [jsRound]
  decide

lemma fill_vegetale_3 : getSegmentFill "vegetale" 3 = "#8fae8f" := by
  have hbase : (CATEGORY_BASE.lookup "vegetale").getD "#888" = "#4a7c4a" := by decide
  simp only [getSegmentFill, hbase]
  norm_num
  unfold lighten
  rw [show parseHex ("#4a7c4a".drop 1) = 4881482 from by decide]
  norm_num [jsRound]
  decide

lemma fill_animale_1 : getSegmentFill "animale" 1 = "#8b6914" := by decide

lemma fill_animale_2 : getSegmentFill "animale" 2 = "#a28743" := by
  have hbase : (CATEGORY_BASE.lookup "animale").getD "#888" = "#8b6914" := by decide
  simp only [getSegmentFill, hbase]
  norm_num
  unfold lighten
  rw [show parseHex ("#8b6914".drop 1) = 9136404 from by decide]
  norm_num [jsRound]
  decide

lemma fill_animale_3 : getSegmentFill "animale" 3 = "#b7a26d" := by
  have hbase : (CATEGORY_BASE.lookup "animale").getD "#888" = "#8b6914" := by decide
  simp only [getSegmentFill, hbase]
  norm_num
  unfold lighten
  rw [show parseHex ("#8b6914".drop 1) = 9136404 from by decide]
  norm_num [jsRound]
  decide

lemma fill_floreale_1 : getSegmentFill "floreale" 1 = "#b85c7a" := by decide

lemma fill_floreale_2 : getSegmentFill "floreale" 2 = "#c67d95" := by
  have hbase : (CATEGORY_BASE.lookup "floreale").getD "#888" = "#b85c7a" := by decide
  simp only [getSegmentFill, hbase]
  norm_num
  unfold lighten
  rw [show parseHex ("#b85c7a".drop 1) = 12082298 from by decide]
  norm_num [jsRound]
  decide

lemma fill_floreale_3 : getSegmentFill "floreale" 3 = "#d39aad" := by
  have hbase : (CATEGORY_BASE.lookup "floreale").getD "#888" = "#b85c7a" := by decide
  simp only [getSegmentFill, hbase]
  norm_num
  unfold lighten
  rw [show parseHex ("#b85c7a".drop 1) = 12082298 from by decide]
  norm_num [jsRound]
  decide

lemma fill_fruttato_1 : getSegmentFill "fruttato" 1 = "#c46838" := by decide

lemma fill_fruttato_2 : getSegmentFill "fruttato" 2 = "#d08660" := by
  have hbase : (CATEGORY_BASE.lookup "fruttato").getD "#888" = "#c46838" := by decide
  simp only [getSegmentFill, hbase]
  norm_num
  unfold lighten
  rw [show parseHex ("#c46838".drop 1) = 12871736 from by decide]
  norm_num [jsRound]
  decide

lemma fill_fruttato_3 : getSegmentFill "fruttato" 3 = "#daa184" := by
  have hbase : (CATEGORY_BASE.lookup "fruttato").getD "#888" = "#c46838" := by decide
  simp only [getSegmentFill, hbase]
  norm_num
  unfold lighten
  rw [show parseHex ("#c46838".drop 1) = 12871736 from by decide]
  norm_num [jsRound]
  decide

lemma fill_caldo_1 : getSegmentFill "caldo" 1 = "#c9a227" := by decide

lemma fill_caldo_2 : getSegmentFill "caldo" 2 = "#d4b552" := by
  have hbase : (CATEGORY_BASE.lookup "caldo").getD "#888" = "#c9a227" := by decide
  simp only [getSegmentFill, hbase]
  norm_num
  unfold lighten
  rw [show parseHex ("#c9a227".drop 1) = 13214247 from by decide]
  norm_num [jsRound]
  decide

lemma fill_caldo_3 : getSegmentFill "caldo" 3 = "#dec579" := by
  have hbase : (CATEGORY_BASE.lookup "caldo").getD "#888" = "#c9a227" := by decide
  simp only [getSegmentFill, hbase]
  norm_num
  unfold lighten
  rw [show parseHex ("#c9a227".drop 1) = 13214247 from by decide]
  norm_num [jsRound]
  decide

lemma fill_aromatico_1 : getSegmentFill "aromatico" 1 = "#6b6b9e" := by decide

lemma fill_aromatico_2 : getSegmentFill "aromatico" 2 = "#8989b1" := by
  have hbase : (CATEGORY_BASE.lookup "aromatico").getD "#888" = "#6b6b9e" := by decide
  simp only [getSegmentFill, hbase]
  norm_num
  unfold lighten
  rw [show parseHex ("#6b6b9e".drop 1) = 7039902 from by decide]
  norm_num [jsRound]
  decide

lemma fill_aromatico_3 : getSegmentFill "aromatico" 3 = "#a3a3c3" := by
  have hbase : (CATEGORY_BASE.lookup "aromatico").getD "#888" = "#6b6b9e" := by decide
  simp only [getSegmentFill, hbase]
  norm_num
  unfold lighten
  rw [show parseHex ("#6b6b9e".drop 1) = 7039902 from by decide]
  norm_num [jsRound]
  decide

lemma fill_chimico_1 : getSegmentFill "chimico" 1 = "#5c6b6b" := by decide

lemma fill_chimico_2 : getSegmentFill "chimico" 2 = "#7d8989" := by
  have hbase : (CATEGORY_BASE.lookup "chimico").getD "#888" = "#5c6b6b" := by decide
  simp only [getSegmentFill, hbase]
  norm_num
  unfold lighten
  rw [show parseHex ("#5c6b6b".drop 1) = 6056811 from by decide]
  norm_num [jsRound]
  decide

lemma fill_chimico_3 : getSegmentFill "chimico" 3 = "#9aa3a3" := by
  have hbase : (CATEGORY_BASE.lookup "chimico").getD "#888" = "#5c6b6b" := by decide
  simp only [getSegmentFill, hbase]
  norm_num
  unfold lighten
  rw [show parseHex ("#5c6b6b".drop 1) = 6056811 from by decide]
  norm_num [jsRound]
  decide

/-- C10 (amended): for every KNOWN category id and every ring in one to
three, `getSegmentFill` returns a valid 7-character `#rrggbb` hex color, and
each channel of the ring-2 and ring-3 colors is at least the corresponding
channel of the ring-1 base color and at most 255 (rings only get lighter).
(For UNKNOWN ids the ring-1 fallback is the 4-character shorthand `"#888"`:
see `getSegmentFill_unknown_ring1_shorthand`.) -/
theorem getSegmentFill_known_hex_lighten_amended :
    ∀ cid ∈ CATEGORY_BASE.map Prod.fst, ∀ ring ∈ [1, 2, 3],
      FillSpecAt cid ring := by
  intro cid hcid ring hring
  simp only [CATEGORY_BASE, List.map] at hcid
  fin_cases hcid <;> fin_cases hring <;>
    (unfold FillSpecAt channelAt
     simp only [fill_vegetale_1, fill_vegetale_2, fill_vegetale_3, fill_animale_1, fill_animale_2, fill_animale_3, fill_floreale_1, fill_floreale_2, fill_floreale_3, fill_fruttato_1, fill_fruttato_2, fill_fruttato_3, fill_caldo_1, fill_caldo_2, fill_caldo_3, fill_aromatico_1, fill_aromatico_2, fill_aromatico_3, fill_chimico_1, fill_chimico_2, fill_chimico_3]
     decide)

/-- Witness for C10's amended theorem at category `"vegetale"`, ring 2. -/
theorem getSegmentFill_known_hex_lighten_amended_witness :
    ("vegetale" ∈ CATEGORY_BASE.map Prod.fst ∧ 2 ∈ [1, 2, 3]) ∧
    FillSpecAt "vegetale" 2 :=
  ⟨⟨by decide, by decide⟩,
   getSegmentFill_known_hex_lighten_amended "vegetale" (by decide) 2
     (by decide)⟩
